import Mathlib

/-!
Verification development for the `adlio/schema` migration runner.

The Go sources are shallowly embedded below: pure helpers become Lean
functions; the `Migrator.Apply` control flow of `migrator.go` becomes a
deterministic interpreter over an oracle that fixes the outcome of every
external database call, together with an event trace and an explicit model
of the tracking table (committed rows vs. rows inserted in the still-open
transaction).  Machine integers are modelled as `Nat`/`Int` with explicit
`% 2^32` (resp. `% 2^64`) where Go's fixed-width arithmetic can overflow.
-/

namespace AdlioSchema

/-- Model of the `Migration` struct of `migration.go`: an ID used as the
sort/identity key and the raw SQL script text. -/
structure Migration where
  ID : String
  Script : String
  deriving DecidableEq, Repr

/-- Configuration fields of the `Migrator` struct of `migrator.go` that the
option functions and the lock-identifier derivation read (`SchemaName`,
`TableName`); the dialect, logger, error and context fields are modelled
separately by the interpreter. -/
structure Migrator where
  SchemaName : String
  TableName : String
  deriving DecidableEq, Repr

/-- Model of `WithTableName` (options file): a variadic option.  The Go
`switch len(names)` has a `case 0` no-op, a `case 1` arm setting only the
table name, and a `default` arm (hit by every arity of two or more) setting
the schema name from `names[0]` and the table name from `names[1]`. -/
def WithTableName (names : List String) (m : Migrator) : Migrator :=
  match names with
  | [] => m
  | [n] => { m with TableName := n }
  | n1 :: n2 :: _ => { m with SchemaName := n1, TableName := n2 }

/-- Model of `time.Duration.Milliseconds()`: the duration is an `int64`
nanosecond count and Go's integer division truncates toward zero
(`Int.tdiv`). -/
def goDurationMilliseconds (ns : Int) : Int :=
  Int.tdiv ns 1000000

/-- Model of `time.Duration.Microseconds()` (truncating `int64` division by
1000). -/
def goDurationMicroseconds (ns : Int) : Int :=
  Int.tdiv ns 1000

/-- Model of the `ExecutionTimeInMillis` computation in `runMigration`
(`migrator.go` lines 161-168): `ms := executionTime.Milliseconds();
if ms == 0 && executionTime.Microseconds() > 0 { ms = 1 }`. -/
def runMigrationMillis (ns : Int) : Int :=
  let ms := goDurationMilliseconds ns
  if ms = 0 ∧ goDurationMicroseconds ns > 0 then 1 else ms

/-- The double-quote character used by the Postgres and SQLite dialects. -/
def dqChar : Char := Char.ofNat 34

/-- The backtick character used by the MySQL dialect. -/
def btChar : Char := Char.ofNat 96

/-- Model of Go's `unicode.IsSpace`: true on `\t \n \v \f \r`, the space,
U+0085, U+00A0, and the Unicode `White_Space` code points U+1680,
U+2000..U+200A, U+2028, U+2029, U+202F, U+205F and U+3000. -/
def goIsSpace (c : Char) : Bool :=
  let n := c.toNat
  n = 9 || n = 10 || n = 11 || n = 12 || n = 13 || n = 32 ||
  n = 133 || n = 160 || n = 5760 ||
  (8192 ≤ n && n ≤ 8202) ||
  n = 8232 || n = 8233 || n = 8239 || n = 8287 || n = 12288

/-- Body of `postgresDialect.QuotedIdent` (the updated `postgres.go`): the
Go `for _, r := range ident` loop with its switch — whitespace runes are
skipped, a double quote is written twice, a semicolon is skipped, every
other rune is copied. -/
def pgQuoteChars : List Char → List Char
  | [] => []
  | c :: rest =>
    if goIsSpace c then pgQuoteChars rest
    else if c = dqChar then dqChar :: dqChar :: pgQuoteChars rest
    else if c = ';' then pgQuoteChars rest
    else c :: pgQuoteChars rest

/-- Model of `postgresDialect.QuotedIdent`: the empty identifier maps to the
empty string, any other identifier is wrapped in double quotes around the
filtered/escaped body. -/
def pgQuotedIdent (ident : String) : String :=
  if ident = "" then ""
  else String.mk ((dqChar :: pgQuoteChars ident.data) ++ [dqChar])

/-- Model of `postgresDialect.QuotedTableName`: quotes the table name alone
when the schema is empty, otherwise joins the two quoted parts with a
dot. -/
def pgQuotedTableName (schemaName tableName : String) : String :=
  if schemaName = "" then pgQuotedIdent tableName
  else pgQuotedIdent schemaName ++ "." ++ pgQuotedIdent tableName

/-- Model of `sqliteDialect.QuotedTableName` (updated `sqlite.go`): the
schema and table names are concatenated and the result is quoted with
exactly the same rune loop as the Postgres dialect (skip whitespace and
semicolons, double the double quote). -/
def sqliteQuotedTableName (schemaName tableName : String) : String :=
  let ident := schemaName ++ tableName
  if ident = "" then ""
  else String.mk ((dqChar :: pgQuoteChars ident.data) ++ [dqChar])

/-- Body of `mssqlDialect.QuotedIdent` (`mssql.go`): whitespace runes and
semicolons are skipped, a closing bracket is written twice, every other
rune is copied. -/
def mssqlQuoteChars : List Char → List Char
  | [] => []
  | c :: rest =>
    if goIsSpace c then mssqlQuoteChars rest
    else if c = ';' then mssqlQuoteChars rest
    else if c = ']' then ']' :: ']' :: mssqlQuoteChars rest
    else c :: mssqlQuoteChars rest

/-- Model of `mssqlDialect.QuotedIdent`: empty identifier maps to the empty
string, otherwise the escaped body is wrapped in square brackets. -/
def mssqlQuotedIdent (ident : String) : String :=
  if ident = "" then ""
  else String.mk (('[' :: mssqlQuoteChars ident.data) ++ [']'])

/-- Per-rune effect of `strings.ReplaceAll(ident, quote, quotequote)` for a
single-character pattern: the backtick becomes two backticks, every other
rune is kept as is. -/
def mysqlEscapeChar (c : Char) : List Char :=
  if c = btChar then [btChar, btChar] else [c]

/-- Model of `mysqlDialect.quotedIdent` (`mysql.go` of the current
snapshot): the empty identifier maps to the empty string, any other
identifier is wrapped in backticks around
`strings.ReplaceAll(ident, backtick, double-backtick)` — note that this
dialect does not strip whitespace or semicolons. -/
def mysqlQuotedIdent (ident : String) : String :=
  if ident = "" then ""
  else String.mk ((btChar :: (ident.data.map mysqlEscapeChar).flatten) ++ [btChar])

/-- Model of `mysqlDialect.QuotedTableName`. -/
def mysqlQuotedTableName (schemaName tableName : String) : String :=
  if schemaName = "" then mysqlQuotedIdent tableName
  else mysqlQuotedIdent schemaName ++ "." ++ mysqlQuotedIdent tableName

/-- UTF-8 encoding of one Unicode scalar value as its byte list. -/
def utf8EncodeCharNat (c : Char) : List Nat :=
  let n := c.toNat
  if n < 128 then [n]
  else if n < 2048 then [192 + n / 64, 128 + n % 64]
  else if n < 65536 then [224 + n / 4096, 128 + (n / 64) % 64, 128 + n % 64]
  else [240 + n / 262144, 128 + (n / 4096) % 64, 128 + (n / 64) % 64, 128 + n % 64]

/-- The UTF-8 bytes of a string (Go's `[]byte(s)`). -/
def utf8Bytes (s : String) : List Nat :=
  (s.data.map utf8EncodeCharNat).flatten

/-- One bit-iteration of the reflected CRC-32 (polynomial `0xEDB88320`),
as computed by Go's `hash/crc32` IEEE table. -/
def crc32Round (c : Nat) : Nat :=
  if c % 2 = 1 then Nat.xor (c / 2) 0xEDB88320 else c / 2

/-- Feed one byte into the CRC-32 state. -/
def crc32UpdateByte (crc b : Nat) : Nat :=
  crc32Round^[8] (Nat.xor crc (b % 256))

/-- Model of Go's `crc32.ChecksumIEEE` over a byte list. -/
def crc32 (bytes : List Nat) : Nat :=
  Nat.xor (bytes.foldl crc32UpdateByte 0xFFFFFFFF) 0xFFFFFFFF

/-- The Postgres advisory-lock salt constant of `postgres.go`. -/
def postgresAdvisoryLockSalt : Nat := 542384964

/-- The MySQL lock salt constant of `mysql.go`. -/
def mysqlLockSalt : Nat := 271192482

/-- Model of `postgresDialect.advisoryLockID`: CRC32-IEEE of the UTF-8
bytes of the argument, multiplied by the salt in `uint32` arithmetic
(hence the `% 2^32`). -/
def pgAdvisoryLockID (tableName : String) : Nat :=
  (crc32 (utf8Bytes tableName) * postgresAdvisoryLockSalt) % 4294967296

/-- Model of `mysqlDialect.advisoryLockID`: CRC32-IEEE of the UTF-8 bytes
of the argument, multiplied by the MySQL salt in `uint32` arithmetic. -/
def mysqlAdvisoryLockID (tableName : String) : Nat :=
  (crc32 (utf8Bytes tableName) * mysqlLockSalt) % 4294967296

/-- The lock identifier a Postgres-dialect Apply run acquires:
`Migrator.lock` (`migrator.go` line 81) passes `m.QuotedTableName()` —
the dialect-quoted, schema-qualified name — to `Locker.Lock`, and the
dialect hashes that string. -/
def pgApplyLockID (m : Migrator) : Nat :=
  pgAdvisoryLockID (pgQuotedTableName m.SchemaName m.TableName)

/-- The lock identifier a Postgres-dialect Apply run tries to release:
`Migrator.unlock` (`migrator.go` line 92) passes the raw `m.TableName` to
`Locker.Unlock`. -/
def pgApplyUnlockID (m : Migrator) : Nat :=
  pgAdvisoryLockID m.TableName

/-- The lock identifier a MySQL-dialect Apply run acquires (same call path
as Postgres: `Lock` receives `m.QuotedTableName()`). -/
def mysqlApplyLockID (m : Migrator) : Nat :=
  mysqlAdvisoryLockID (mysqlQuotedTableName m.SchemaName m.TableName)

/-- The lock identifier a MySQL-dialect Apply run tries to release
(`Unlock` receives the raw `m.TableName`). -/
def mysqlApplyUnlockID (m : Migrator) : Nat :=
  mysqlAdvisoryLockID m.TableName

/-- 32-bit left rotation of a value below `2^32`. -/
def rotl32 (x s : Nat) : Nat :=
  (x % 2 ^ (32 - s)) * 2 ^ s + x / 2 ^ (32 - s)

/-- The 64 MD5 sine-derived round constants (`floor(2^32 * abs(sin(i+1)))`). -/
def md5K : List Nat :=
  [0xd76aa478, 0xe8c7b756, 0x242070db, 0xc1bdceee,
   0xf57c0faf, 0x4787c62a, 0xa8304613, 0xfd469501,
   0x698098d8, 0x8b44f7af, 0xffff5bb1, 0x895cd7be,
   0x6b901122, 0xfd987193, 0xa679438e, 0x49b40821,
   0xf61e2562, 0xc040b340, 0x265e5a51, 0xe9b6c7aa,
   0xd62f105d, 0x02441453, 0xd8a1e681, 0xe7d3fbc8,
   0x21e1cde6, 0xc33707d6, 0xf4d50d87, 0x455a14ed,
   0xa9e3e905, 0xfcefa3f8, 0x676f02d9, 0x8d2a4c8a,
   0xfffa3942, 0x8771f681, 0x6d9d6122, 0xfde5380c,
   0xa4beea44, 0x4bdecfa9, 0xf6bb4b60, 0xbebfbc70,
   0x289b7ec6, 0xeaa127fa, 0xd4ef3085, 0x04881d05,
   0xd9d4d039, 0xe6db99e5, 0x1fa27cf8, 0xc4ac5665,
   0xf4292244, 0x432aff97, 0xab9423a7, 0xfc93a039,
   0x655b59c3, 0x8f0ccc92, 0xffeff47d, 0x85845dd1,
   0x6fa87e4f, 0xfe2ce6e0, 0xa3014314, 0x4e0811a1,
   0xf7537e82, 0xbd3af235, 0x2ad7d2bb, 0xeb86d391]

/-- The 64 MD5 per-round left-rotation amounts. -/
def md5S : List Nat :=
  [7, 12, 17, 22, 7, 12, 17, 22, 7, 12, 17, 22, 7, 12, 17, 22,
   5, 9, 14, 20, 5, 9, 14, 20, 5, 9, 14, 20, 5, 9, 14, 20,
   4, 11, 16, 23, 4, 11, 16, 23, 4, 11, 16, 23, 4, 11, 16, 23,
   6, 10, 15, 21, 6, 10, 15, 21, 6, 10, 15, 21, 6, 10, 15, 21]

/-- The MD5 round functions F/G/H/I, selected by round index; the bitwise
complement of a 32-bit word `w` is `4294967295 - w`. -/
def md5F (i b c d : Nat) : Nat :=
  if i < 16 then (b &&& c) ||| ((4294967295 - b) &&& d)
  else if i < 32 then (d &&& b) ||| ((4294967295 - d) &&& c)
  else if i < 48 then Nat.xor b (Nat.xor c d)
  else Nat.xor c (b ||| (4294967295 - d))

/-- The MD5 message-word index for round `i`. -/
def md5G (i : Nat) : Nat :=
  if i < 16 then i
  else if i < 32 then (5 * i + 1) % 16
  else if i < 48 then (3 * i + 5) % 16
  else (7 * i) % 16

/-- The MD5 working state: four 32-bit words. -/
structure MD5State where
  a : Nat
  b : Nat
  c : Nat
  d : Nat

/-- The MD5 length suffix: the bit length of the message, as eight
little-endian bytes of its value modulo `2^64`. -/
def md5LengthBytesLE (bits : Nat) : List Nat :=
  (List.range 8).map (fun i => (bits % 18446744073709551616) / 256 ^ i % 256)

/-- The MD5 padding for a message of `len` bytes: a `0x80` byte, zero bytes
up to 56 mod 64, then the 8-byte little-endian bit length. -/
def md5Padding (len : Nat) : List Nat :=
  [128] ++ List.replicate ((119 - len % 64) % 64) 0 ++ md5LengthBytesLE (len * 8)

/-- Split a byte list into 64-byte chunks; the fuel argument is an upper
bound on the number of chunks that makes the recursion structural (each
step drops 64 bytes, so the list length is always enough fuel). -/
def splitChunksAux : Nat → List Nat → List (List Nat)
  | 0, _ => []
  | _, [] => []
  | fuel + 1, l => l.take 64 :: splitChunksAux fuel (l.drop 64)

/-- Split a byte list into 64-byte chunks. -/
def splitChunks (l : List Nat) : List (List Nat) :=
  splitChunksAux l.length l

/-- The sixteen little-endian 32-bit words of a 64-byte chunk. -/
def chunkWordsLE (block : List Nat) : List Nat :=
  (List.range 16).map (fun i =>
    block.getD (4 * i) 0 + 256 * block.getD (4 * i + 1) 0 +
    65536 * block.getD (4 * i + 2) 0 + 16777216 * block.getD (4 * i + 3) 0)

/-- One MD5 round applied to the working state. -/
def md5Round (M : List Nat) (st : MD5State) (i : Nat) : MD5State :=
  let f := (md5F i st.b st.c st.d + st.a + md5K.getD i 0 + M.getD (md5G i) 0) % 4294967296
  ⟨st.d, (st.b + rotl32 f (md5S.getD i 0)) % 4294967296, st.b, st.c⟩

/-- Process one 64-byte chunk: 64 rounds, then add the result into the
incoming state modulo `2^32`. -/
def md5ProcessChunk (st : MD5State) (block : List Nat) : MD5State :=
  let M := chunkWordsLE block
  let r := (List.range 64).foldl (md5Round M) st
  ⟨(st.a + r.a) % 4294967296, (st.b + r.b) % 4294967296,
   (st.c + r.c) % 4294967296, (st.d + r.d) % 4294967296⟩

/-- The four little-endian bytes of a 32-bit word. -/
def wordBytesLE (w : Nat) : List Nat :=
  [w % 256, w / 256 % 256, w / 65536 % 256, w / 16777216 % 256]

/-- The 16-byte MD5 digest of a byte list. -/
def md5Digest (msg : List Nat) : List Nat :=
  let padded := msg ++ md5Padding msg.length
  let st := (splitChunks padded).foldl md5ProcessChunk
    ⟨0x67452301, 0xefcdab89, 0x98badcfe, 0x10325476⟩
  wordBytesLE st.a ++ wordBytesLE st.b ++ wordBytesLE st.c ++ wordBytesLE st.d

/-- The lowercase hexadecimal digit for a nibble. -/
def hexDigitChar (n : Nat) : Char :=
  "0123456789abcdef".data.getD n '0'

/-- The two lowercase hex characters of a byte. -/
def byteHex (b : Nat) : List Char :=
  [hexDigitChar (b / 16 % 16), hexDigitChar (b % 16)]

/-- Lowercase-hex MD5 of the UTF-8 bytes of a string. -/
def md5Hex (s : String) : String :=
  String.mk (((md5Digest (utf8Bytes s)).map byteHex).flatten)

/-- Modelled from the spec: the body of the `Migration.MD5` method is not
present under `src/` (only its callers in the dialects and `TestMD5`); the
spec defines the fingerprint as the lowercase-hex MD5 of the UTF-8 bytes of
`Script` (32 lowercase hex characters). -/
def Migration.MD5 (m : Migration) : String :=
  md5Hex m.Script

/-- Model of the `AppliedMigration` struct: it embeds `Migration` and adds
the checksum, execution time and application timestamp (the timestamp is
opaque to every claim and is modelled as an integer). -/
structure AppliedMigration where
  migration : Migration
  Checksum : String
  ExecutionTimeInMillis : Int
  AppliedAt : Int

/-- The promoted `MD5` method of the embedded `Migration`. -/
def AppliedMigration.MD5 (am : AppliedMigration) : String :=
  am.migration.MD5

/-- A SQL statement argument as passed to `ExecContext`. -/
inductive SqlArg where
  | s (v : String)
  | i (v : Int)
  | t (v : Int)
  deriving DecidableEq

/-- Model of `postgresDialect.InsertAppliedMigration` (`postgres.go`): the
positional arguments bound to the `( $1, $2, $3, $4 )` placeholders of the
INSERT — `am.ID, am.MD5(), am.ExecutionTimeInMillis, am.AppliedAt` — so the
`checksum` column receives `am.MD5()`. -/
def pgInsertAppliedMigrationArgs (am : AppliedMigration) : List SqlArg :=
  [SqlArg.s am.migration.ID, SqlArg.s am.MD5,
   SqlArg.i am.ExecutionTimeInMillis, SqlArg.t am.AppliedAt]

/-- Model of `SortMigrations` (`migration.go` lines 28-34): the source calls
Go's `sort.Slice` with the comparison `migrations[i].ID < migrations[j].ID`.
`sort.Slice` guarantees an ID-ascending reordering of the slice (and
nothing more); we realise it as an insertion sort on the same key, which
satisfies that contract. -/
def SortMigrations (l : List Migration) : List Migration :=
  l.insertionSort (fun a b => a.ID ≤ b.ID)

/-- The plan computed by `computeMigrationPlan` (`migrator.go` lines
111-126): keep the input migrations whose ID has no row in the applied map,
in input order, then sort ascending by ID. -/
def migrationPlan (applied : List String) (toRun : List Migration) :
    List Migration :=
  SortMigrations (toRun.filter (fun mg => !(applied.contains mg.ID)))

/-- The observable events of one `Apply` run, in program order: borrowing
and closing the pooled connection, the dialect lock/unlock calls, the
transaction begin/commit/rollback, the tracking-table creation statement,
the applied-rows SELECT, each script execution and each tracking-row
INSERT. -/
inductive Event where
  | connAcquire
  | connClose
  | lockCall
  | unlockCall
  | beginTx
  | commitTx
  | rollbackTx
  | createTable
  | selectApplied
  | execScript (mg : Migration)
  | insertRow (id : String)
  deriving DecidableEq, Repr

/-- The outcome of every external database call of one `Apply` run: `none`
means success, `some e` means the call fails with error message `e`.
`isLocker` tells whether the dialect implements the optional `Locker`
interface. -/
structure Oracle where
  connErr : Option String
  isLocker : Bool
  lockErr : Option String
  unlockErr : Option String
  beginErr : Option String
  createErr : Option String
  selectErr : Option String
  execErr : String → Option String
  insertErr : String → Option String
  commitErr : Option String

/-- The mutable world of one `Apply` run: the committed rows of the
tracking table (by migration ID), the rows inserted by the still-open
transaction, the event trace so far, and the migrator's `err` field. -/
structure MState where
  committed : List String
  txRows : List String
  trace : List Event
  merr : Option String
  deriving DecidableEq, Repr

/-- The message of `ErrNilDB` (`schema.go`). -/
def errNilDB : String := "DB pointer is nil"

/-- Model of `Migrator.lock` (`migrator.go` lines 75-88): abort if the
migrator already has an error; otherwise, when the dialect is a `Locker`,
call `Lock` with the quoted table name and record a failure in `m.err`. -/
def lockStep (o : Oracle) (s : MState) : MState :=
  if s.merr.isSome then s
  else if o.isLocker then
    match o.lockErr with
    | none => { s with trace := s.trace ++ [Event.lockCall] }
    | some e => { s with trace := s.trace ++ [Event.lockCall], merr := some e }
  else s

/-- Model of `Migrator.unlock` (`migrator.go` lines 90-101): when the
dialect is a `Locker`, call `Unlock` unconditionally (there is no abort on
an earlier error); an unlock failure is stored in `m.err` only when no
earlier error is present. -/
def unlockStep (o : Oracle) (s : MState) : MState :=
  if o.isLocker then
    let s1 := { s with trace := s.trace ++ [Event.unlockCall] }
    match o.unlockErr with
    | none => s1
    | some e => if s1.merr.isNone then { s1 with merr := some e } else s1
  else s

/-- Model of `Migrator.createMigrationsTable` (`migrator.go` lines
103-109): abort on an earlier error, otherwise `m.err` becomes the result
of the dialect's `CreateMigrationsTable`. -/
def createTableStep (o : Oracle) (s : MState) : MState :=
  if s.merr.isSome then s
  else
    let s1 := { s with trace := s.trace ++ [Event.createTable] }
    match o.createErr with
    | none => s1
    | some e => { s1 with merr := some e }

/-- Model of `computeMigrationPlan`: read the applied rows (the committed
table plus this transaction's own inserts, which are visible inside the
transaction) and filter and sort the input; a SELECT failure is returned
as the error. -/
def computePlanStep (o : Oracle) (s : MState) (toRun : List Migration) :
    MState × Option (List Migration) :=
  let s1 := { s with trace := s.trace ++ [Event.selectApplied] }
  match o.selectErr with
  | some e => ({ s1 with merr := some e }, none)
  | none => (s1, some (migrationPlan (s.committed ++ s.txRows) toRun))

/-- Model of `Migrator.runMigration` (`migrator.go` lines 153-176): execute
the script (wrapping a failure as `Migration '<ID>' Failed:`), then insert
the tracking row, recording an insert failure in `m.err`. -/
def runMigrationStep (o : Oracle) (s : MState) (mg : Migration) : MState :=
  let s1 := { s with trace := s.trace ++ [Event.execScript mg] }
  match o.execErr mg.Script with
  | some e =>
      { s1 with merr := some ("Migration '" ++ mg.ID ++ "' Failed:\n" ++ e) }
  | none =>
      let s2 := { s1 with trace := s1.trace ++ [Event.insertRow mg.ID] }
      match o.insertErr mg.ID with
      | some e => { s2 with merr := some e }
      | none => { s2 with txRows := s2.txRows ++ [mg.ID] }

/-- The plan loop of `Migrator.run` (`migrator.go` lines 145-150): run each
migration in plan order and stop at the first failure. -/
def runLoop (o : Oracle) (s : MState) : List Migration → MState
  | [] => s
  | mg :: rest =>
      let s1 := runMigrationStep o s mg
      if s1.merr.isSome then s1 else runLoop o s1 rest

/-- Model of `Migrator.run` (`migrator.go` lines 128-151): abort on an
earlier error, compute the plan, and run it (the `tx == nil` guard cannot
fire on the `Apply` path, where the transaction is always non-nil). -/
def runStep (o : Oracle) (s : MState) (migrations : List Migration) : MState :=
  if s.merr.isSome then s
  else
    match computePlanStep o s migrations with
    | (s1, none) => s1
    | (s1, some plan) => runLoop o s1 plan

/-- Model of `Migrator.transaction` (`migrator.go` lines 181-218): abort on
an earlier error; `BeginTx` failure becomes `m.err`; otherwise run the body
(create the tracking table, then run the plan); the deferred block rolls
back — discarding this transaction's rows — when `m.err` is set, and
commits otherwise, publishing the rows only when the commit succeeds. -/
def transactionStep (o : Oracle) (s : MState) (migrations : List Migration) :
    MState :=
  if s.merr.isSome then s
  else
    match o.beginErr with
    | some e => { s with merr := some e }
    | none =>
        let s1 := { s with trace := s.trace ++ [Event.beginTx] }
        let s2 := runStep o (createTableStep o s1) migrations
        if s2.merr.isSome then
          { s2 with trace := s2.trace ++ [Event.rollbackTx], txRows := [] }
        else
          let s3 := { s2 with trace := s2.trace ++ [Event.commitTx] }
          match o.commitErr with
          | some e => { s3 with merr := some e, txRows := [] }
          | none =>
              { s3 with committed := s3.committed ++ s3.txRows, txRows := [] }

/-- Model of `Migrator.Apply` (`migrator.go` lines 49-73): nil-DB guard,
borrow a connection (failure returns that error), lock, run the
transaction, then — by deferred-call order — unlock and close the
connection; the returned error is the migrator's `err` field.  The initial
committed table is `applied0`. -/
def ApplyRun (o : Oracle) (dbPresent : Bool) (applied0 : List String)
    (migrations : List Migration) : MState × Option String :=
  let s0 : MState := { committed := applied0, txRows := [], trace := [],
                       merr := none }
  if !dbPresent then (s0, some errNilDB)
  else
    match o.connErr with
    | some e => (s0, some e)
    | none =>
        let s1 := { s0 with trace := [Event.connAcquire] }
        let s2 := lockStep o s1
        let s3 := transactionStep o s2 migrations
        let s4 := unlockStep o s3
        let s5 := { s4 with trace := s4.trace ++ [Event.connClose] }
        (s5, s5.merr)

/-- The exec/insert event pairs of a plan, in order. -/
def planEvents : List Migration → List Event
  | [] => []
  | mg :: rest => Event.execScript mg :: Event.insertRow mg.ID :: planEvents rest

/-- The script executions recorded in a trace, in order. -/
def execList : List Event → List Migration
  | [] => []
  | Event.execScript mg :: rest => mg :: execList rest
  | _ :: rest => execList rest

/-- An oracle on which every database call succeeds (with a Lockable
dialect). -/
def allOkOracle : Oracle :=
  { connErr := none, isLocker := true, lockErr := none, unlockErr := none,
    beginErr := none, createErr := none, selectErr := none,
    execErr := fun _ => none, insertErr := fun _ => none, commitErr := none }

/-- An oracle on which the script `bad` fails and everything else
succeeds. -/
def execFailOracle : Oracle :=
  { allOkOracle with
    execErr := fun scr => if scr = "bad" then some "boom" else none }

/-- An oracle on which lock acquisition fails and everything else
succeeds. -/
def lockFailOracle : Oracle :=
  { allOkOracle with lockErr := some "lock failed" }

instance : IsTotal Migration (fun a b : Migration => a.ID ≤ b.ID) :=
  ⟨fun a b => le_total a.ID b.ID⟩

instance : IsTrans Migration (fun a b : Migration => a.ID ≤ b.ID) :=
  ⟨fun _ _ _ hab hbc => le_trans hab hbc⟩

end AdlioSchema

namespace AdlioSchema

/-- C10: Applying `WithTableName` with three string arguments is not a
no-op: the `default` arm of the Go switch assigns the first two names to
the schema and table, so the migrator's names change.  This refutes the
claim that any arity other than 1 or 2 leaves them unchanged. -/
theorem withTableName_three_args_not_noop :
    WithTableName ["a", "b", "c"] ⟨"s", "t"⟩ = ⟨"a", "b"⟩ ∧
    WithTableName ["a", "b", "c"] ⟨"s", "t"⟩ ≠ ⟨"s", "t"⟩ := by
  constructor
  · rfl
  · decide

/-- C10 (amended): `WithTableName` with zero arguments leaves the migrator
unchanged; with one argument it sets only the table name; with two or more
arguments it sets the schema name from the first and the table name from
the second, ignoring any extras. -/
theorem withTableName_cases (m : Migrator) (n1 n2 : String) (rest : List String) :
    WithTableName [] m = m ∧
    WithTableName [n1] m = { m with TableName := n1 } ∧
    WithTableName (n1 :: n2 :: rest) m = { m with SchemaName := n1, TableName := n2 } :=
  ⟨rfl, rfl, rfl⟩

/-- C9: a migration whose script takes 500 nanoseconds (positive, below one
millisecond) records 0 milliseconds, not the 1 the claim requires: the Go
guard demands `Microseconds() > 0`, and `500 / 1000 = 0`. -/
theorem runMigrationMillis_500ns_is_zero :
    (0 : Int) < 500 ∧ (500 : Int) < 1000000 ∧
    runMigrationMillis 500 = 0 ∧ runMigrationMillis 500 ≠ 1 := by
  refine ⟨by decide, by decide, by decide, by decide⟩

/-- C9 (amended): for every non-negative elapsed time the recorded value is
non-negative; durations of at least one millisecond record the truncated
millisecond count; durations of at least one microsecond but under one
millisecond record 1; durations under one microsecond record 0. -/
theorem runMigrationMillis_spec (ns : Int) (h : 0 ≤ ns) :
    0 ≤ runMigrationMillis ns ∧
    (1000000 ≤ ns → runMigrationMillis ns = Int.tdiv ns 1000000) ∧
    (1000 ≤ ns → ns < 1000000 → runMigrationMillis ns = 1) ∧
    (ns < 1000 → runMigrationMillis ns = 0) := by
  obtain ⟨n, rfl⟩ := Int.eq_ofNat_of_zero_le h
  have key : runMigrationMillis (n : Int) =
      (if ((n / 1000000 : Nat) : Int) = 0 ∧ ((n / 1000 : Nat) : Int) > 0 then (1 : Int)
       else ((n / 1000000 : Nat) : Int)) := rfl
  simp only [Nat.cast_eq_zero, gt_iff_lt, Nat.cast_pos] at key
  have hdiv : Int.tdiv (n : Int) 1000000 = ((n / 1000000 : Nat) : Int) := rfl
  refine ⟨?_, ?_, ?_, ?_⟩
  · rw [key]
    split
    · decide
    · exact Int.natCast_nonneg _
  · intro h6
    have hn : 1000000 ≤ n := by exact_mod_cast h6
    rw [key, hdiv]
    rw [if_neg]
    intro hcond
    have := (Nat.div_eq_zero_iff (by norm_num : 0 < 1000000)).1 hcond.1
    omega
  · intro h1 h2
    have hlo : 1000 ≤ n := by exact_mod_cast h1
    have hhi : n < 1000000 := by exact_mod_cast h2
    rw [key, if_pos]
    exact ⟨Nat.div_eq_of_lt hhi, Nat.div_pos hlo (by norm_num)⟩
  · intro hlt
    have hn : n < 1000 := by exact_mod_cast hlt
    rw [key, if_neg]
    · rw [Nat.div_eq_of_lt (show n < 1000000 by omega)]
      rfl
    · intro hcond
      rw [Nat.div_eq_of_lt hn] at hcond
      exact absurd hcond.2 (by decide)

/-- Witness for `runMigrationMillis_spec` at the concrete duration 1500 ns. -/
theorem runMigrationMillis_spec_witness :
    (0 : Int) ≤ 1500 ∧ runMigrationMillis 1500 = 1 :=
  ⟨by decide, ((runMigrationMillis_spec 1500 (by decide)).2.2.1 (by decide) (by decide))⟩

set_option maxRecDepth 100000 in
/-- C4: at the default configuration (no schema, table `schema_migrations`)
the Postgres lock path hashes the quoted name and the unlock path hashes
the raw name, so the two advisory-lock identifiers differ; the unlock side
matches the documented `CRC32(unqualified name) * salt` formula, the lock
side does not.  The same asymmetry holds for the MySQL dialect. -/
theorem lock_unlock_identifier_mismatch :
    pgApplyLockID ⟨"", "schema_migrations"⟩ = 73299452 ∧
    pgApplyUnlockID ⟨"", "schema_migrations"⟩ = 1367654712 ∧
    pgApplyLockID ⟨"", "schema_migrations"⟩ ≠ pgApplyUnlockID ⟨"", "schema_migrations"⟩ ∧
    pgApplyUnlockID ⟨"", "schema_migrations"⟩ =
      (crc32 (utf8Bytes "schema_migrations") * postgresAdvisoryLockSalt) % 4294967296 ∧
    pgApplyLockID ⟨"", "schema_migrations"⟩ ≠
      (crc32 (utf8Bytes "schema_migrations") * postgresAdvisoryLockSalt) % 4294967296 ∧
    mysqlApplyLockID ⟨"", "schema_migrations"⟩ ≠ mysqlApplyUnlockID ⟨"", "schema_migrations"⟩ := by
  refine ⟨by decide, by decide, by decide, by decide, by decide, by decide⟩

/-- Every character produced by the Postgres/SQLite quoting loop is neither
whitespace nor a semicolon. -/
theorem pgQuoteChars_clean (l : List Char) :
    ∀ c ∈ pgQuoteChars l, goIsSpace c = false ∧ c ≠ ';' := by
  induction l with
  | nil => intro c hc; simp [pgQuoteChars] at hc
  | cons a rest ih =>
    intro c hc
    unfold pgQuoteChars at hc
    by_cases hsp : goIsSpace a
    · rw [if_pos hsp] at hc; exact ih c hc
    · rw [if_neg hsp] at hc
      by_cases hdq : a = dqChar
      · rw [if_pos hdq, List.mem_cons, List.mem_cons] at hc
        rcases hc with h | h | h
        · subst h; exact ⟨by decide, by decide⟩
        · subst h; exact ⟨by decide, by decide⟩
        · exact ih c h
      · rw [if_neg hdq] at hc
        by_cases hsc : a = ';'
        · rw [if_pos hsc] at hc; exact ih c hc
        · rw [if_neg hsc, List.mem_cons] at hc
          rcases hc with h | h
          · subst h
            exact ⟨Bool.eq_false_iff.2 hsp, hsc⟩
          · exact ih c h

/-- The Postgres/SQLite quoting loop exactly doubles every double-quote of
its input. -/
theorem pgQuoteChars_count (l : List Char) :
    (pgQuoteChars l).count dqChar = 2 * l.count dqChar := by
  induction l with
  | nil => simp [pgQuoteChars]
  | cons a rest ih =>
    unfold pgQuoteChars
    by_cases hsp : goIsSpace a
    · have hne : dqChar ≠ a := by
        intro h; rw [← h] at hsp; exact absurd hsp (by decide)
      rw [if_pos hsp, List.count_cons_of_ne hne, ih]
    · rw [if_neg hsp]
      by_cases hdq : a = dqChar
      · subst hdq
        rw [if_pos rfl, List.count_cons_self, List.count_cons_self,
          List.count_cons_self, ih]
        omega
      · rw [if_neg hdq]
        have hne : dqChar ≠ a := fun h => hdq h.symm
        by_cases hsc : a = ';'
        · rw [if_pos hsc, List.count_cons_of_ne hne, ih]
        · rw [if_neg hsc, List.count_cons_of_ne hne, List.count_cons_of_ne hne, ih]

/-- Every character produced by the SQL Server quoting loop is neither
whitespace nor a semicolon. -/
theorem mssqlQuoteChars_clean (l : List Char) :
    ∀ c ∈ mssqlQuoteChars l, goIsSpace c = false ∧ c ≠ ';' := by
  induction l with
  | nil => intro c hc; simp [mssqlQuoteChars] at hc
  | cons a rest ih =>
    intro c hc
    unfold mssqlQuoteChars at hc
    by_cases hsp : goIsSpace a
    · rw [if_pos hsp] at hc; exact ih c hc
    · rw [if_neg hsp] at hc
      by_cases hsc : a = ';'
      · rw [if_pos hsc] at hc; exact ih c hc
      · rw [if_neg hsc] at hc
        by_cases hrb : a = ']'
        · rw [if_pos hrb, List.mem_cons, List.mem_cons] at hc
          rcases hc with h | h | h
          · subst h; exact ⟨by decide, by decide⟩
          · subst h; exact ⟨by decide, by decide⟩
          · exact ih c h
        · rw [if_neg hrb, List.mem_cons] at hc
          rcases hc with h | h
          · subst h; exact ⟨Bool.eq_false_iff.2 hsp, hsc⟩
          · exact ih c h

/-- The SQL Server quoting loop exactly doubles every closing bracket of
its input. -/
theorem mssqlQuoteChars_count (l : List Char) :
    (mssqlQuoteChars l).count ']' = 2 * l.count ']' := by
  induction l with
  | nil => simp [mssqlQuoteChars]
  | cons a rest ih =>
    unfold mssqlQuoteChars
    by_cases hsp : goIsSpace a
    · have hne : ']' ≠ a := by
        intro h; rw [← h] at hsp; exact absurd hsp (by decide)
      rw [if_pos hsp, List.count_cons_of_ne hne, ih]
    · rw [if_neg hsp]
      by_cases hsc : a = ';'
      · have hne : ']' ≠ a := by subst hsc; decide
        rw [if_pos hsc, List.count_cons_of_ne hne, ih]
      · rw [if_neg hsc]
        by_cases hrb : a = ']'
        · subst hrb
          rw [if_pos rfl, List.count_cons_self, List.count_cons_self,
            List.count_cons_self, ih]
          omega
        · have hne : ']' ≠ a := fun h => hrb h.symm
          rw [if_neg hrb, List.count_cons_of_ne hne, List.count_cons_of_ne hne, ih]

/-- Each input character survives the MySQL escaping (the backtick as a
doubled pair, everything else verbatim). -/
theorem mysqlEscape_mem (l : List Char) :
    ∀ c ∈ l, c ∈ (l.map mysqlEscapeChar).flatten := by
  intro c hc
  refine List.mem_flatten.2 ⟨mysqlEscapeChar c, List.mem_map_of_mem _ hc, ?_⟩
  by_cases h : c = btChar
  · subst h; simp [mysqlEscapeChar]
  · simp [mysqlEscapeChar, h]

/-- The MySQL escaping exactly doubles every backtick of its input. -/
theorem mysqlEscape_count (l : List Char) :
    ((l.map mysqlEscapeChar).flatten).count btChar = 2 * l.count btChar := by
  induction l with
  | nil => simp
  | cons a rest ih =>
    rw [List.map_cons, List.flatten_cons, List.count_append, ih]
    by_cases h : a = btChar
    · subst h
      have e1 : mysqlEscapeChar btChar = [btChar, btChar] := by
        simp [mysqlEscapeChar]
      have e2 : List.count btChar [btChar, btChar] = 2 := by decide
      rw [e1, e2, List.count_cons_self]
      omega
    · have hne : btChar ≠ a := fun hh => h hh.symm
      have e1 : mysqlEscapeChar a = [a] := by simp [mysqlEscapeChar, h]
      have e2 : List.count btChar [a] = 0 :=
        List.count_eq_zero.2 (by simp [hne])
      rw [e1, e2, List.count_cons_of_ne hne]
      omega

/-- C6 (counterexample): the MySQL `quotedIdent` keeps the space and the
semicolon of the identifier `a b;c`, so it is not true that every built-in
dialect strips whitespace and semicolons when quoting. -/
theorem mysql_quotedIdent_keeps_space_and_semicolon :
    mysqlQuotedIdent "a b;c" = "`a b;c`" ∧
    (' ') ∈ (mysqlQuotedIdent "a b;c").data ∧
    goIsSpace ' ' = true ∧
    (';') ∈ (mysqlQuotedIdent "a b;c").data := by
  refine ⟨by decide, by decide, by decide, by decide⟩

/-- C6 (amended): the Postgres, SQLite and SQL Server quoted identifiers
contain no whitespace characters and no semicolons and double their quote
character (the closing bracket for SQL Server); the MySQL quoted identifier
doubles the backtick but keeps whitespace and semicolons of the input. -/
theorem builtin_quoting_spec (ident schemaName tableName : String)
    (hi : ident ≠ "") (hst : schemaName ++ tableName ≠ "") :
    (∀ c ∈ (pgQuotedIdent ident).data, goIsSpace c = false ∧ c ≠ ';') ∧
    ((pgQuotedIdent ident).data.count dqChar = 2 + 2 * ident.data.count dqChar) ∧
    (∀ c ∈ (sqliteQuotedTableName schemaName tableName).data,
        goIsSpace c = false ∧ c ≠ ';') ∧
    ((sqliteQuotedTableName schemaName tableName).data.count dqChar =
        2 + 2 * (schemaName ++ tableName).data.count dqChar) ∧
    (∀ c ∈ (mssqlQuotedIdent ident).data, goIsSpace c = false ∧ c ≠ ';') ∧
    ((mssqlQuotedIdent ident).data.count ']' = 1 + 2 * ident.data.count ']') ∧
    (∀ c ∈ ident.data, (goIsSpace c = true ∨ c = ';') →
        c ∈ (mysqlQuotedIdent ident).data) ∧
    ((mysqlQuotedIdent ident).data.count btChar = 2 + 2 * ident.data.count btChar) := by
  have hpg : (pgQuotedIdent ident).data =
      (dqChar :: pgQuoteChars ident.data) ++ [dqChar] := by
    unfold pgQuotedIdent; rw [if_neg hi]
  have hsq : (sqliteQuotedTableName schemaName tableName).data =
      (dqChar :: pgQuoteChars (schemaName ++ tableName).data) ++ [dqChar] := by
    unfold sqliteQuotedTableName
    rw [if_neg hst]
  have hms : (mssqlQuotedIdent ident).data =
      ('[' :: mssqlQuoteChars ident.data) ++ [']'] := by
    unfold mssqlQuotedIdent; rw [if_neg hi]
  have hmy : (mysqlQuotedIdent ident).data =
      (btChar :: (ident.data.map mysqlEscapeChar).flatten) ++ [btChar] := by
    unfold mysqlQuotedIdent; rw [if_neg hi]
  refine ⟨?_, ?_, ?_, ?_, ?_, ?_, ?_, ?_⟩
  · intro c hc
    rw [hpg, List.mem_append, List.mem_cons, List.mem_singleton] at hc
    rcases hc with (h | h) | h
    · subst h; exact ⟨by decide, by decide⟩
    · exact pgQuoteChars_clean _ c h
    · subst h; exact ⟨by decide, by decide⟩
  · rw [hpg, List.count_append, List.count_cons_self, List.count_singleton,
      pgQuoteChars_count]
    simp only [beq_self_eq_true, if_true]
    omega
  · intro c hc
    rw [hsq, List.mem_append, List.mem_cons, List.mem_singleton] at hc
    rcases hc with (h | h) | h
    · subst h; exact ⟨by decide, by decide⟩
    · exact pgQuoteChars_clean _ c h
    · subst h; exact ⟨by decide, by decide⟩
  · rw [hsq, List.count_append, List.count_cons_self, List.count_singleton,
      pgQuoteChars_count]
    simp only [beq_self_eq_true, if_true]
    omega
  · intro c hc
    rw [hms, List.mem_append, List.mem_cons, List.mem_singleton] at hc
    rcases hc with (h | h) | h
    · subst h; exact ⟨by decide, by decide⟩
    · exact mssqlQuoteChars_clean _ c h
    · subst h; exact ⟨by decide, by decide⟩
  · rw [hms, List.count_append,
      List.count_cons_of_ne (show ']' ≠ '[' by decide), List.count_singleton,
      mssqlQuoteChars_count]
    simp only [beq_self_eq_true, if_true]
    omega
  · intro c hc _
    rw [hmy]
    refine List.mem_append.2 (Or.inl ?_)
    exact List.mem_cons_of_mem _ (mysqlEscape_mem _ c hc)
  · rw [hmy, List.count_append, List.count_cons_self, List.count_singleton,
      mysqlEscape_count]
    simp only [beq_self_eq_true, if_true]
    omega

/-- Witness for `builtin_quoting_spec` at the identifier `a b;c`. -/
theorem builtin_quoting_spec_witness :
    ("a b;c" : String) ≠ "" ∧
    (("s" : String) ++ "t") ≠ "" ∧
    ((pgQuotedIdent "a b;c").data.count dqChar = 2 + 2 * ("a b;c".data.count dqChar)) :=
  ⟨by decide, by decide,
    (builtin_quoting_spec "a b;c" "s" "t" (by decide) (by decide)).2.1⟩

/-- Every nibble maps to a character of the lowercase hex alphabet. -/
theorem hexDigitChar_mem (n : Nat) :
    hexDigitChar n ∈ "0123456789abcdef".data := by
  unfold hexDigitChar
  by_cases h : n < "0123456789abcdef".data.length
  · rw [List.getD_eq_getElem _ _ h]
    exact List.getElem_mem h
  · rw [List.getD_eq_default _ _ (Nat.le_of_not_lt h)]
    decide

/-- Hex-encoding a byte list yields twice as many characters. -/
theorem flatten_map_byteHex_length (l : List Nat) :
    ((l.map byteHex).flatten).length = 2 * l.length := by
  induction l with
  | nil => simp
  | cons a rest ih =>
    simp [byteHex, ih]
    omega

/-- The MD5 digest always consists of sixteen bytes. -/
theorem md5Digest_length (msg : List Nat) : (md5Digest msg).length = 16 := by
  unfold md5Digest
  simp [wordBytesLE]

set_option maxRecDepth 1000000 in
/-- C8: the `checksum` argument (placeholder `$2`) that
`postgresDialect.InsertAppliedMigration` binds is exactly the fingerprint
`md5Hex` of the migration's script; the fingerprint of `"test"` is
`098f6bcd4621d373cade4e832627b4f6`; and every fingerprint is a 32-character
lowercase-hex string. -/
theorem insertAppliedMigration_checksum_fingerprint
    (am : AppliedMigration) (s : String) :
    (pgInsertAppliedMigrationArgs am)[1]? =
      some (SqlArg.s (md5Hex am.migration.Script)) ∧
    md5Hex "test" = "098f6bcd4621d373cade4e832627b4f6" ∧
    (md5Hex s).length = 32 ∧
    ∀ c ∈ (md5Hex s).data, c ∈ "0123456789abcdef".data := by
  refine ⟨rfl, by decide, ?_, ?_⟩
  · have h1 : (md5Hex s).length =
        (((md5Digest (utf8Bytes s)).map byteHex).flatten).length := rfl
    rw [h1, flatten_map_byteHex_length, md5Digest_length]
  · intro c hc
    have hc' : c ∈ ((md5Digest (utf8Bytes s)).map byteHex).flatten := hc
    obtain ⟨lc, hlc, hcl⟩ := List.mem_flatten.1 hc'
    obtain ⟨b, hb, rfl⟩ := List.mem_map.1 hlc
    rw [byteHex, List.mem_cons, List.mem_singleton] at hcl
    rcases hcl with h | h
    · subst h; exact hexDigitChar_mem _
    · subst h; exact hexDigitChar_mem _

set_option maxRecDepth 1000000 in
/-- Witness for `insertAppliedMigration_checksum_fingerprint`: the first
character of the fingerprint of `"test"` is a lowercase hex character. -/
theorem insertAppliedMigration_checksum_fingerprint_witness :
    ('0' ∈ (md5Hex "test").data) ∧ ('0' ∈ "0123456789abcdef".data) :=
  ⟨by decide,
    (insertAppliedMigration_checksum_fingerprint ⟨⟨"a", "test"⟩, "", 0, 0⟩
      "test").2.2.2 '0' (by decide)⟩

/-- Membership in the plan is membership in the input with an ID absent
from the applied set (the filter of `computeMigrationPlan`, via the sort
being a permutation). -/
theorem mem_migrationPlan (applied : List String) (migs : List Migration)
    (mg : Migration) :
    mg ∈ migrationPlan applied migs ↔ (mg ∈ migs ∧ mg.ID ∉ applied) := by
  unfold migrationPlan SortMigrations
  rw [(List.perm_insertionSort _ _).mem_iff, List.mem_filter]
  simp

/-- The plan is sorted ascending by ID. -/
theorem migrationPlan_sorted (applied : List String) (migs : List Migration) :
    List.Sorted (fun a b : Migration => a.ID ≤ b.ID)
      (migrationPlan applied migs) :=
  List.sorted_insertionSort _ _

/-- `planEvents` distributes over append. -/
theorem planEvents_append (l1 l2 : List Migration) :
    planEvents (l1 ++ l2) = planEvents l1 ++ planEvents l2 := by
  induction l1 with
  | nil => simp [planEvents]
  | cons mg rest ih => simp [planEvents, ih]

/-- `execList` distributes over append. -/
theorem execList_append (l1 l2 : List Event) :
    execList (l1 ++ l2) = execList l1 ++ execList l2 := by
  induction l1 with
  | nil => simp [execList]
  | cons e rest ih => cases e <;> simp [execList, ih]

/-- The executions of a plan's event block are the plan itself. -/
theorem execList_planEvents (plan : List Migration) :
    execList (planEvents plan) = plan := by
  induction plan with
  | nil => simp [planEvents, execList]
  | cons mg rest ih => simp [planEvents, execList, ih]

/-- An exec event occurs in a plan's event block iff the migration is in
the plan. -/
theorem execScript_mem_planEvents (plan : List Migration) (mg : Migration) :
    Event.execScript mg ∈ planEvents plan ↔ mg ∈ plan := by
  induction plan with
  | nil => simp [planEvents]
  | cons mg' rest ih => simp [planEvents, ih]

/-- A fully successful `runMigrationStep` appends the exec and insert
events and queues the inserted row. -/
theorem runMigrationStep_ok (o : Oracle) (cm tx : List String)
    (tr : List Event) (mg : Migration)
    (he : o.execErr mg.Script = none) (hi : o.insertErr mg.ID = none) :
    runMigrationStep o (MState.mk cm tx tr none) mg =
      MState.mk cm (tx ++ [mg.ID])
        (tr ++ [Event.execScript mg, Event.insertRow mg.ID]) none := by
  unfold runMigrationStep
  rw [he, hi]
  simp

/-- `runMigrationStep` never touches the committed table. -/
theorem runMigrationStep_committed (o : Oracle) (s : MState) (mg : Migration) :
    (runMigrationStep o s mg).committed = s.committed := by
  unfold runMigrationStep
  cases o.execErr mg.Script with
  | some e => rfl
  | none => cases o.insertErr mg.ID with
    | some e => rfl
    | none => rfl

/-- A `runMigrationStep` that ends without an error started without one and
had a successful script execution and row insert. -/
theorem runMigrationStep_merr_none (o : Oracle) (s : MState) (mg : Migration)
    (h : (runMigrationStep o s mg).merr = none) :
    s.merr = none ∧ o.execErr mg.Script = none ∧ o.insertErr mg.ID = none := by
  unfold runMigrationStep at h
  cases he : o.execErr mg.Script with
  | some e => rw [he] at h; simp at h
  | none =>
    rw [he] at h
    cases hi : o.insertErr mg.ID with
    | some e => rw [hi] at h; simp at h
    | none => rw [hi] at h; exact ⟨h, rfl, rfl⟩

/-- A fully successful `runLoop` appends the plan's event pairs and queues
all the plan's rows. -/
theorem runLoop_ok (o : Oracle) (plan : List Migration)
    (hall : ∀ mg ∈ plan, o.execErr mg.Script = none ∧ o.insertErr mg.ID = none) :
    ∀ (cm tx : List String) (tr : List Event),
    runLoop o (MState.mk cm tx tr none) plan =
      MState.mk cm (tx ++ plan.map (fun mg => mg.ID))
        (tr ++ planEvents plan) none := by
  induction plan with
  | nil => intro cm tx tr; simp [runLoop, planEvents]
  | cons mg rest ih =>
    intro cm tx tr
    have hmg := hall mg (List.mem_cons_self _ _)
    rw [runLoop, runMigrationStep_ok o cm tx tr mg hmg.1 hmg.2]
    rw [if_neg (by simp)]
    rw [ih (fun mg' h => hall mg' (List.mem_cons_of_mem _ h)) cm _ _]
    simp [planEvents, List.append_assoc]

/-- A `runLoop` that ends without an error started without one, and every
plan member's script execution and row insert succeeded. -/
theorem runLoop_merr_none (o : Oracle) (plan : List Migration) :
    ∀ s : MState, (runLoop o s plan).merr = none →
      s.merr = none ∧
      ∀ mg ∈ plan, o.execErr mg.Script = none ∧ o.insertErr mg.ID = none := by
  induction plan with
  | nil => intro s h; exact ⟨h, by simp⟩
  | cons mg rest ih =>
    intro s h
    rw [runLoop] at h
    by_cases h1 : (runMigrationStep o s mg).merr.isSome
    · rw [if_pos h1] at h
      rw [h] at h1
      simp at h1
    · rw [if_neg h1] at h
      have h2 := ih _ h
      have h3 : (runMigrationStep o s mg).merr = none :=
        Option.not_isSome_iff_eq_none.1 h1
      have h4 := runMigrationStep_merr_none o s mg h3
      refine ⟨h4.1, fun mg' hmem => ?_⟩
      rcases List.mem_cons.1 hmem with rfl | hmem'
      · exact ⟨h4.2.1, h4.2.2⟩
      · exact h2.2 mg' hmem'

/-- `runLoop` never touches the committed table. -/
theorem runLoop_committed (o : Oracle) (plan : List Migration) :
    ∀ s : MState, (runLoop o s plan).committed = s.committed := by
  induction plan with
  | nil => intro s; rfl
  | cons mg rest ih =>
    intro s
    rw [runLoop]
    by_cases h1 : (runMigrationStep o s mg).merr.isSome
    · rw [if_pos h1]; exact runMigrationStep_committed o s mg
    · rw [if_neg h1]
      rw [ih _]
      exact runMigrationStep_committed o s mg

/-- A successful `lockStep` only appends the lock event (when the dialect
is a `Locker`). -/
theorem lockStep_ok (o : Oracle) (cm tx : List String) (tr : List Event)
    (hl : o.lockErr = none) :
    lockStep o (MState.mk cm tx tr none) =
      MState.mk cm tx (tr ++ (if o.isLocker then [Event.lockCall] else []))
        none := by
  unfold lockStep
  rw [if_neg (by simp)]
  cases hL : o.isLocker <;> simp [hl]

/-- `lockStep` never touches committed rows. -/
theorem lockStep_committed (o : Oracle) (s : MState) :
    (lockStep o s).committed = s.committed := by
  unfold lockStep
  by_cases hm : s.merr.isSome
  · rw [if_pos hm]
  · rw [if_neg hm]
    cases hL : o.isLocker
    · simp
    · simp only [if_true]
      cases o.lockErr <;> rfl

/-- `lockStep` preserves the pending transaction rows. -/
theorem lockStep_txRows (o : Oracle) (s : MState) :
    (lockStep o s).txRows = s.txRows := by
  unfold lockStep
  by_cases hm : s.merr.isSome
  · rw [if_pos hm]
  · rw [if_neg hm]
    cases hL : o.isLocker
    · simp
    · simp only [if_true]
      cases o.lockErr <;> rfl

/-- A successful unlock only appends the unlock event, whatever the error
state. -/
theorem unlockStep_ok (o : Oracle) (cm tx : List String) (tr : List Event)
    (m : Option String) (hu : o.unlockErr = none) :
    unlockStep o (MState.mk cm tx tr m) =
      MState.mk cm tx (tr ++ (if o.isLocker then [Event.unlockCall] else []))
        m := by
  unfold unlockStep
  cases hL : o.isLocker <;> simp [hu]

/-- `unlockStep` on a failed migrator appends the unlock event and keeps the
error (an unlock failure cannot overwrite it). -/
theorem unlockStep_merr_some (o : Oracle) (s : MState) (e : String)
    (hm : s.merr = some e) :
    unlockStep o s =
      { s with trace := s.trace ++
          (if o.isLocker then [Event.unlockCall] else []) } := by
  unfold unlockStep
  cases hL : o.isLocker
  · simp
  · simp only [if_true]
    cases o.unlockErr with
    | none => rfl
    | some e2 => simp [hm]

/-- `unlockStep` never touches committed rows. -/
theorem unlockStep_committed (o : Oracle) (s : MState) :
    (unlockStep o s).committed = s.committed := by
  unfold unlockStep
  cases hL : o.isLocker
  · simp
  · simp only [if_true]
    cases o.unlockErr with
    | none => rfl
    | some e2 =>
      by_cases hn : s.merr.isNone
      · simp [hn]
      · simp [hn]

/-- `unlockStep` keeps an already-present error. -/
theorem unlockStep_merr (o : Oracle) (s : MState) (h : s.merr.isSome = true) :
    (unlockStep o s).merr = s.merr := by
  obtain ⟨v, hv⟩ := Option.isSome_iff_exists.1 h
  rw [unlockStep_merr_some o s v hv]

/-- A successful `createTableStep` only appends the create event. -/
theorem createTableStep_ok (o : Oracle) (cm tx : List String)
    (tr : List Event) (hc : o.createErr = none) :
    createTableStep o (MState.mk cm tx tr none) =
      MState.mk cm tx (tr ++ [Event.createTable]) none := by
  unfold createTableStep
  rw [if_neg (by simp)]
  simp [hc]

/-- A successful SELECT yields the plan computed from the rows visible in
the transaction. -/
theorem computePlanStep_ok (o : Oracle) (cm tx : List String)
    (tr : List Event) (toRun : List Migration) (hs : o.selectErr = none) :
    computePlanStep o (MState.mk cm tx tr none) toRun =
      (MState.mk cm tx (tr ++ [Event.selectApplied]) none,
       some (migrationPlan (cm ++ tx) toRun)) := by
  unfold computePlanStep
  rw [hs]

/-- `runStep` on a clean state with a successful SELECT runs the loop on
the computed plan. -/
theorem runStep_ok (o : Oracle) (cm tx : List String) (tr : List Event)
    (migs : List Migration) (hs : o.selectErr = none) :
    runStep o (MState.mk cm tx tr none) migs =
      runLoop o (MState.mk cm tx (tr ++ [Event.selectApplied]) none)
        (migrationPlan (cm ++ tx) migs) := by
  unfold runStep
  rw [if_neg (by simp), computePlanStep_ok o cm tx tr migs hs]

/-- A fully successful `transactionStep`: begin, create, select, the plan's
exec/insert pairs, commit; the transaction's rows are published to the
committed table. -/
theorem transactionStep_ok (o : Oracle) (cm tx : List String)
    (tr : List Event) (migs : List Migration)
    (hb : o.beginErr = none) (hc : o.createErr = none)
    (hs : o.selectErr = none)
    (hexec : ∀ str, o.execErr str = none) (hins : ∀ i, o.insertErr i = none)
    (hcm : o.commitErr = none) :
    transactionStep o (MState.mk cm tx tr none) migs =
      MState.mk
        (cm ++ (tx ++ (migrationPlan (cm ++ tx) migs).map (fun mg => mg.ID)))
        []
        (tr ++ [Event.beginTx, Event.createTable, Event.selectApplied] ++
          planEvents (migrationPlan (cm ++ tx) migs) ++ [Event.commitTx])
        none := by
  unfold transactionStep
  rw [if_neg (by simp), hb]
  dsimp only
  rw [createTableStep_ok o cm tx _ hc]
  rw [runStep_ok o cm tx _ migs hs]
  rw [runLoop_ok o _ (fun mg _ => ⟨hexec mg.Script, hins mg.ID⟩) cm tx _]
  rw [if_neg (by simp)]
  dsimp only
  rw [hcm]
  simp [List.append_assoc]

/-- A fully successful `ApplyRun`: the run returns no error, commits every
plan row, and traces connection, lock, transaction body and unlock in
program order. -/
theorem applyRun_ok (o : Oracle) (applied0 : List String)
    (migs : List Migration)
    (hconn : o.connErr = none) (hlock : o.lockErr = none)
    (hunlock : o.unlockErr = none) (hbegin : o.beginErr = none)
    (hcreate : o.createErr = none) (hselect : o.selectErr = none)
    (hexec : ∀ str, o.execErr str = none) (hins : ∀ i, o.insertErr i = none)
    (hcommit : o.commitErr = none) :
    ApplyRun o true applied0 migs =
      (MState.mk
        (applied0 ++ (migrationPlan applied0 migs).map (fun mg => mg.ID))
        []
        ([Event.connAcquire] ++
          (if o.isLocker then [Event.lockCall] else []) ++
          [Event.beginTx, Event.createTable, Event.selectApplied] ++
          planEvents (migrationPlan applied0 migs) ++ [Event.commitTx] ++
          (if o.isLocker then [Event.unlockCall] else []) ++
          [Event.connClose])
        none, none) := by
  unfold ApplyRun
  rw [hconn]
  dsimp only
  rw [lockStep_ok o applied0 [] [Event.connAcquire] hlock]
  rw [transactionStep_ok o applied0 [] _ migs hbegin hcreate hselect hexec
    hins hcommit]
  rw [unlockStep_ok o _ [] _ none hunlock]
  simp [List.append_assoc]

/-- C1: in a fully successful Apply run, a script executes iff its
migration is in the input with an ID absent from the applied rows read in
the transaction; the executions are exactly the plan, which is sorted
ascending by ID; and the tracking-table insert of plan entry `k` precedes
the script execution of plan entry `k+1` in the trace. -/
theorem apply_plan_iff_ordered (o : Oracle) (applied0 : List String)
    (migs : List Migration)
    (hconn : o.connErr = none) (hlock : o.lockErr = none)
    (hunlock : o.unlockErr = none) (hbegin : o.beginErr = none)
    (hcreate : o.createErr = none) (hselect : o.selectErr = none)
    (hexec : ∀ str, o.execErr str = none) (hins : ∀ i, o.insertErr i = none)
    (hcommit : o.commitErr = none) :
    (∀ mg, Event.execScript mg ∈ (ApplyRun o true applied0 migs).1.trace ↔
        (mg ∈ migs ∧ mg.ID ∉ applied0)) ∧
    execList (ApplyRun o true applied0 migs).1.trace =
      migrationPlan applied0 migs ∧
    List.Sorted (fun a b : Migration => a.ID ≤ b.ID)
      (migrationPlan applied0 migs) ∧
    (∀ k, (hk : k + 1 < (migrationPlan applied0 migs).length) →
      ∃ l1 l2 l3, (ApplyRun o true applied0 migs).1.trace =
        l1 ++
        [Event.insertRow
          ((migrationPlan applied0 migs).get ⟨k, by omega⟩).ID] ++
        l2 ++
        [Event.execScript ((migrationPlan applied0 migs).get ⟨k + 1, hk⟩)] ++
        l3) := by
  rw [applyRun_ok o applied0 migs hconn hlock hunlock hbegin hcreate hselect
    hexec hins hcommit]
  refine ⟨?_, ?_, migrationPlan_sorted _ _, ?_⟩
  · intro mg
    by_cases hL : o.isLocker <;>
      simp [hL, List.mem_append, execScript_mem_planEvents, mem_migrationPlan]
  · by_cases hL : o.isLocker <;>
      simp [hL, execList_append, execList, execList_planEvents]
  · intro k hk
    have hk' : k < (migrationPlan applied0 migs).length := by omega
    refine ⟨[Event.connAcquire] ++
        (if o.isLocker then [Event.lockCall] else []) ++
        [Event.beginTx, Event.createTable, Event.selectApplied] ++
        planEvents ((migrationPlan applied0 migs).take k) ++
        [Event.execScript ((migrationPlan applied0 migs).get ⟨k, hk'⟩)],
      [],
      Event.insertRow
          ((migrationPlan applied0 migs).get ⟨k + 1, hk⟩).ID ::
        planEvents ((migrationPlan applied0 migs).drop (k + 2)) ++
        [Event.commitTx] ++
        (if o.isLocker then [Event.unlockCall] else []) ++
        [Event.connClose], ?_⟩
    dsimp only
    conv_lhs =>
      rw [show planEvents (migrationPlan applied0 migs) =
        planEvents ((migrationPlan applied0 migs).take k ++
          (migrationPlan applied0 migs).drop k) by
          rw [List.take_append_drop]]
    rw [List.drop_eq_getElem_cons hk', List.drop_eq_getElem_cons hk]
    rw [planEvents_append, planEvents, planEvents]
    simp [List.append_assoc, List.get_eq_getElem]

/-- Witness for `apply_plan_iff_ordered` on a concrete three-migration
input with one already-applied row. -/
theorem apply_plan_iff_ordered_witness :
    execList (ApplyRun allOkOracle true ["b"]
        [⟨"c", "s3"⟩, ⟨"a", "s1"⟩, ⟨"b", "s2"⟩]).1.trace =
      migrationPlan ["b"] [⟨"c", "s3"⟩, ⟨"a", "s1"⟩, ⟨"b", "s2"⟩] :=
  (apply_plan_iff_ordered allOkOracle ["b"]
    [⟨"c", "s3"⟩, ⟨"a", "s1"⟩, ⟨"b", "s2"⟩]
    rfl rfl rfl rfl rfl rfl (fun _ => rfl) (fun _ => rfl) rfl).2.1

/-- C3 (counterexample): `Apply` with an empty migration list still borrows
a connection, still calls the dialect's `Lock`, and still creates the
tracking table (the code has no empty-list early return); it does return
success. -/
theorem apply_empty_still_locks_and_creates :
    (ApplyRun allOkOracle true [] []).2 = none ∧
    Event.connAcquire ∈ (ApplyRun allOkOracle true [] []).1.trace ∧
    Event.lockCall ∈ (ApplyRun allOkOracle true [] []).1.trace ∧
    Event.createTable ∈ (ApplyRun allOkOracle true [] []).1.trace := by
  refine ⟨by decide, by decide, by decide, by decide⟩

/-- C3 (amended): with an empty migration list and successful database
calls, `Apply` returns success, executes no script and inserts no row, and
leaves the tracking table unchanged — but it still borrows the connection,
acquires the lock of a Lockable dialect, creates the tracking table and
commits its transaction. -/
theorem apply_empty_list_behavior (o : Oracle) (applied0 : List String)
    (hconn : o.connErr = none) (hlock : o.lockErr = none)
    (hunlock : o.unlockErr = none) (hbegin : o.beginErr = none)
    (hcreate : o.createErr = none) (hselect : o.selectErr = none)
    (hexec : ∀ str, o.execErr str = none) (hins : ∀ i, o.insertErr i = none)
    (hcommit : o.commitErr = none) :
    (ApplyRun o true applied0 []).2 = none ∧
    (∀ mg, Event.execScript mg ∉ (ApplyRun o true applied0 []).1.trace) ∧
    (∀ i, Event.insertRow i ∉ (ApplyRun o true applied0 []).1.trace) ∧
    (ApplyRun o true applied0 []).1.committed = applied0 ∧
    Event.connAcquire ∈ (ApplyRun o true applied0 []).1.trace ∧
    (o.isLocker = true →
      Event.lockCall ∈ (ApplyRun o true applied0 []).1.trace) ∧
    Event.createTable ∈ (ApplyRun o true applied0 []).1.trace ∧
    Event.commitTx ∈ (ApplyRun o true applied0 []).1.trace := by
  rw [applyRun_ok o applied0 [] hconn hlock hunlock hbegin hcreate hselect
    hexec hins hcommit]
  have hplan : migrationPlan applied0 [] = [] := rfl
  rw [hplan]
  by_cases hL : o.isLocker <;>
    simp [hL, planEvents, List.mem_append]

/-- Witness for `apply_empty_list_behavior` at a concrete oracle and
tracking table. -/
theorem apply_empty_list_behavior_witness :
    (ApplyRun allOkOracle true ["x"] []).2 = none ∧
    (ApplyRun allOkOracle true ["x"] []).1.committed = ["x"] :=
  ⟨(apply_empty_list_behavior allOkOracle ["x"] rfl rfl rfl rfl rfl rfl
      (fun _ => rfl) (fun _ => rfl) rfl).1,
   (apply_empty_list_behavior allOkOracle ["x"] rfl rfl rfl rfl rfl rfl
      (fun _ => rfl) (fun _ => rfl) rfl).2.2.2.1⟩

/-- C5 (counterexample): when lock acquisition fails, `Apply` returns the
lock error, but the deferred unlock still invokes the dialect's `Unlock`
(the trace contains the unlock call). -/
theorem apply_lock_failure_still_unlocks :
    (ApplyRun lockFailOracle true [] [⟨"a", "s"⟩]).2 = some "lock failed" ∧
    Event.unlockCall ∈ (ApplyRun lockFailOracle true [] [⟨"a", "s"⟩]).1.trace := by
  refine ⟨by decide, by decide⟩

/-- C5 (amended): when lock acquisition fails on a Lockable dialect,
`Apply` returns the lock error (an unlock failure cannot overwrite it), no
transaction is begun, no script runs, nothing is committed — but the
dialect's `Unlock` is still invoked by the deferred unlock. -/
theorem apply_lock_failure_behavior (o : Oracle) (applied0 : List String)
    (migs : List Migration) (e : String)
    (hconn : o.connErr = none) (hL : o.isLocker = true)
    (hlock : o.lockErr = some e) :
    (ApplyRun o true applied0 migs).2 = some e ∧
    Event.unlockCall ∈ (ApplyRun o true applied0 migs).1.trace ∧
    Event.beginTx ∉ (ApplyRun o true applied0 migs).1.trace ∧
    (∀ mg, Event.execScript mg ∉ (ApplyRun o true applied0 migs).1.trace) ∧
    Event.commitTx ∉ (ApplyRun o true applied0 migs).1.trace ∧
    (ApplyRun o true applied0 migs).1.committed = applied0 := by
  unfold ApplyRun
  rw [hconn]
  dsimp only
  have hLock : lockStep o (MState.mk applied0 [] [Event.connAcquire] none) =
      MState.mk applied0 [] [Event.connAcquire, Event.lockCall] (some e) := by
    unfold lockStep
    rw [if_neg (by simp), if_pos hL, hlock]
    simp
  rw [hLock]
  have hTx : transactionStep o
      (MState.mk applied0 [] [Event.connAcquire, Event.lockCall] (some e))
      migs =
      MState.mk applied0 [] [Event.connAcquire, Event.lockCall] (some e) := by
    unfold transactionStep
    rw [if_pos (by simp)]
  rw [hTx]
  rw [unlockStep_merr_some o _ e rfl]
  rw [hL]
  simp

/-- Witness for `apply_lock_failure_behavior` at a concrete oracle. -/
theorem apply_lock_failure_behavior_witness :
    (ApplyRun lockFailOracle true ["x"] [⟨"a", "s"⟩]).2 = some "lock failed" ∧
    (ApplyRun lockFailOracle true ["x"] [⟨"a", "s"⟩]).1.committed = ["x"] :=
  ⟨(apply_lock_failure_behavior lockFailOracle ["x"] [⟨"a", "s"⟩]
      "lock failed" rfl rfl rfl).1,
   (apply_lock_failure_behavior lockFailOracle ["x"] [⟨"a", "s"⟩]
      "lock failed" rfl rfl rfl).2.2.2.2.2⟩

/-- `createTableStep` never touches committed rows. -/
theorem createTableStep_committed (o : Oracle) (s : MState) :
    (createTableStep o s).committed = s.committed := by
  unfold createTableStep
  by_cases hm : s.merr.isSome
  · rw [if_pos hm]
  · rw [if_neg hm]
    cases o.createErr <;> rfl

/-- `createTableStep` preserves the pending transaction rows. -/
theorem createTableStep_txRows (o : Oracle) (s : MState) :
    (createTableStep o s).txRows = s.txRows := by
  unfold createTableStep
  by_cases hm : s.merr.isSome
  · rw [if_pos hm]
  · rw [if_neg hm]
    cases o.createErr <;> rfl

/-- On a clean state, `createTableStep` ends with the dialect's create
result as the migrator error. -/
theorem createTableStep_merr (o : Oracle) (s : MState) (hm : s.merr = none) :
    (createTableStep o s).merr = o.createErr := by
  unfold createTableStep
  rw [if_neg (by rw [hm]; simp)]
  cases hcr : o.createErr with
  | none => dsimp only; exact hm
  | some e => rfl

/-- `runStep` leaves a failed state untouched. -/
theorem runStep_merr_some (o : Oracle) (s : MState) (migs : List Migration)
    (hm : s.merr.isSome = true) : runStep o s migs = s := by
  unfold runStep
  rw [if_pos hm]

/-- `runStep` never touches committed rows. -/
theorem runStep_committed (o : Oracle) (s : MState) (migs : List Migration) :
    (runStep o s migs).committed = s.committed := by
  unfold runStep computePlanStep
  by_cases hm : s.merr.isSome
  · rw [if_pos hm]
  · rw [if_neg hm]
    cases hse : o.selectErr with
    | some e => rfl
    | none =>
      dsimp only
      rw [runLoop_committed]

/-- If some plan member's script or insert fails, `runStep` on a clean
state ends with an error. -/
theorem runStep_merr_fail (o : Oracle) (s : MState) (migs : List Migration)
    (hm : s.merr = none)
    (hfail : ∃ mg ∈ migrationPlan (s.committed ++ s.txRows) migs,
        (o.execErr mg.Script).isSome = true ∨
        (o.insertErr mg.ID).isSome = true) :
    (runStep o s migs).merr.isSome = true := by
  unfold runStep computePlanStep
  rw [if_neg (by rw [hm]; simp)]
  cases hse : o.selectErr with
  | some e => rfl
  | none =>
    dsimp only
    by_contra hcon
    have h0 : (runLoop o { s with trace := s.trace ++ [Event.selectApplied] }
        (migrationPlan (s.committed ++ s.txRows) migs)).merr = none :=
      Option.not_isSome_iff_eq_none.1 hcon
    have h2 := runLoop_merr_none o _ _ h0
    obtain ⟨mg, hmem, hbad⟩ := hfail
    have h3 := h2.2 mg hmem
    rcases hbad with hb | hb
    · rw [h3.1] at hb; simp at hb
    · rw [h3.2] at hb; simp at hb

/-- If some plan member's script or insert fails, the transaction ends
with an error and is rolled back: the committed table is unchanged. -/
theorem transactionStep_fail (o : Oracle) (s : MState) (migs : List Migration)
    (hfail : ∃ mg ∈ migrationPlan (s.committed ++ s.txRows) migs,
        (o.execErr mg.Script).isSome = true ∨
        (o.insertErr mg.ID).isSome = true) :
    (transactionStep o s migs).merr.isSome = true ∧
    (transactionStep o s migs).committed = s.committed := by
  unfold transactionStep
  by_cases hm : s.merr.isSome
  · rw [if_pos hm]; exact ⟨hm, rfl⟩
  · rw [if_neg hm]
    have hm' : s.merr = none := Option.not_isSome_iff_eq_none.1 hm
    cases hb : o.beginErr with
    | some e => exact ⟨rfl, rfl⟩
    | none =>
      dsimp only
      have hcc : (createTableStep o
          { s with trace := s.trace ++ [Event.beginTx] }).committed =
          s.committed := createTableStep_committed o _
      have hct : (createTableStep o
          { s with trace := s.trace ++ [Event.beginTx] }).txRows =
          s.txRows := createTableStep_txRows o _
      have h1 : (createTableStep o
          { s with trace := s.trace ++ [Event.beginTx] }).merr = o.createErr :=
        createTableStep_merr o _ hm'
      have hS2 : (runStep o (createTableStep o
          { s with trace := s.trace ++ [Event.beginTx] }) migs).merr.isSome
          = true := by
        cases hcr : o.createErr with
        | some e =>
          rw [hcr] at h1
          rw [runStep_merr_some o _ migs (by rw [h1]; rfl), h1]
          rfl
        | none =>
          rw [hcr] at h1
          refine runStep_merr_fail o _ migs h1 ?_
          rw [hcc, hct]
          exact hfail
      rw [if_pos hS2]
      refine ⟨hS2, ?_⟩
      rw [show ({ runStep o (createTableStep o
          { s with trace := s.trace ++ [Event.beginTx] }) migs with
          trace := (runStep o (createTableStep o
            { s with trace := s.trace ++ [Event.beginTx] }) migs).trace ++
            [Event.rollbackTx], txRows := [] } : MState).committed =
          (runStep o (createTableStep o
            { s with trace := s.trace ++ [Event.beginTx] }) migs).committed
        from rfl]
      rw [runStep_committed, hcc]

/-- C2: if any plan member's script execution or tracking-row insert
fails, `Apply` returns an error and the committed tracking table is
unchanged — in particular none of the plan's migrations appear in it
(single-transaction rollback). -/
theorem apply_atomic_rollback (o : Oracle) (dbPresent : Bool)
    (applied0 : List String) (migs : List Migration)
    (hfail : ∃ mg ∈ migrationPlan applied0 migs,
        (o.execErr mg.Script).isSome = true ∨
        (o.insertErr mg.ID).isSome = true) :
    ((ApplyRun o dbPresent applied0 migs).2).isSome = true ∧
    (ApplyRun o dbPresent applied0 migs).1.committed = applied0 ∧
    ∀ mg ∈ migrationPlan applied0 migs,
      mg.ID ∉ (ApplyRun o dbPresent applied0 migs).1.committed := by
  have hids : ∀ mg ∈ migrationPlan applied0 migs, mg.ID ∉ applied0 :=
    fun mg h => ((mem_migrationPlan _ _ _).1 h).2
  unfold ApplyRun
  cases dbPresent with
  | false => exact ⟨rfl, rfl, fun mg h => hids mg h⟩
  | true =>
    simp only [Bool.not_true, Bool.false_eq_true, if_false]
    cases hc : o.connErr with
    | some e => exact ⟨rfl, rfl, fun mg h => hids mg h⟩
    | none =>
      dsimp only
      have h2c : (lockStep o
          (MState.mk applied0 [] [Event.connAcquire] none)).committed =
          applied0 := lockStep_committed o _
      have h2t : (lockStep o
          (MState.mk applied0 [] [Event.connAcquire] none)).txRows = [] :=
        lockStep_txRows o _
      have hfail2 : ∃ mg ∈ migrationPlan
          ((lockStep o (MState.mk applied0 [] [Event.connAcquire]
            none)).committed ++
           (lockStep o (MState.mk applied0 [] [Event.connAcquire]
            none)).txRows) migs,
          (o.execErr mg.Script).isSome = true ∨
          (o.insertErr mg.ID).isSome = true := by
        rw [h2c, h2t, List.append_nil]
        exact hfail
      have htx := transactionStep_fail o _ migs hfail2
      have hu := unlockStep_merr o _ htx.1
      have huc := unlockStep_committed o (transactionStep o
        (lockStep o (MState.mk applied0 [] [Event.connAcquire] none)) migs)
      refine ⟨?_, ?_, ?_⟩
      · rw [show ((unlockStep o (transactionStep o (lockStep o
          (MState.mk applied0 [] [Event.connAcquire] none)) migs)).merr
          = (transactionStep o (lockStep o (MState.mk applied0 []
          [Event.connAcquire] none)) migs).merr) from hu]
        exact htx.1
      · rw [huc, htx.2, h2c]
      · intro mg h
        rw [huc, htx.2, h2c]
        exact hids mg h

/-- Witness for `apply_atomic_rollback`: a single failing migration leaves
the tracking table empty and surfaces an error. -/
theorem apply_atomic_rollback_witness :
    ((ApplyRun execFailOracle true [] [⟨"a", "bad"⟩]).2).isSome = true ∧
    (ApplyRun execFailOracle true [] [⟨"a", "bad"⟩]).1.committed = [] :=
  have hfail : ∃ mg ∈ migrationPlan [] [⟨"a", "bad"⟩],
      (execFailOracle.execErr mg.Script).isSome = true ∨
      (execFailOracle.insertErr mg.ID).isSome = true :=
    ⟨⟨"a", "bad"⟩, (mem_migrationPlan _ _ _).2 ⟨by simp, by simp⟩,
      Or.inl (by rfl)⟩
  ⟨(apply_atomic_rollback execFailOracle true [] [⟨"a", "bad"⟩] hfail).1,
   (apply_atomic_rollback execFailOracle true [] [⟨"a", "bad"⟩] hfail).2.1⟩

end AdlioSchema
